import Mathlib

/-!
Shallow embedding of the Local-LLM-Keyboard-IOS training/compression scripts.

Python strings are modelled as `List Char` (a Python `str` is a sequence of
code points), Python dicts as insertion-ordered association lists with
update-in-place insertion (`dictInsert`) and first-match lookup (`dictFind`);
since `dictInsert` never duplicates a key, first-match lookup agrees with
Python dict lookup.  Python floats arising from the size computations are
modelled as rationals: every division performed by the scripts on the values
the claims mention is a division by a power of two, which is exact in IEEE
binary floating point, so the rational model is faithful there.
-/

namespace LLMKeyboard

/-! ### Python string and list primitives -/

abbrev PyStr := List Char

/-- Python `s.strip()` : remove leading and trailing whitespace. -/
def pyStrip (s : PyStr) : PyStr :=
  ((s.dropWhile Char.isWhitespace).reverse.dropWhile Char.isWhitespace).reverse

/-- Python slice `l[:n]` (supports negative `n`). -/
def pySliceTo (n : Int) (l : List α) : List α :=
  if 0 ≤ n then l.take n.toNat else l.take (l.length - (-n).toNat)

/-- Python slice `l[n:]` (supports negative `n`). -/
def pySliceFrom (n : Int) (l : List α) : List α :=
  if 0 ≤ n then l.drop n.toNat else l.drop (l.length - (-n).toNat)

/-- Python `int(q)` on a float/rational: truncation toward zero. -/
def pyInt (q : ℚ) : Int := q.num.tdiv q.den

/-! ### Python dict model -/

/-- Python `d.get(k)` / `d[k]` : lookup (first match; keys are unique). -/
def dictFind [DecidableEq κ] (d : List (κ × ν)) (k : κ) : Option ν :=
  match d with
  | [] => none
  | (k', v) :: rest => if k' = k then some v else dictFind rest k

/-- Python `d[k] = v` : update in place if the key exists, else append. -/
def dictInsert [DecidableEq κ] (d : List (κ × ν)) (k : κ) (v : ν) : List (κ × ν) :=
  match d with
  | [] => [(k, v)]
  | (k', v') :: rest => if k' = k then (k, v) :: rest else (k', v') :: dictInsert rest k v

/-! ### SimpleTokenizer (train_tiny_model.py) -/

/-- The Python string '<pad>'. -/
def padTok : PyStr := ['<', 'p', 'a', 'd', '>']

/-- The Python string '<unk>'. -/
def unkTok : PyStr := ['<', 'u', 'n', 'k', '>']

/-- State of `SimpleTokenizer`; `vocab_size` is a Python int. -/
structure SimpleTokenizer where
  vocab_size : Int
  char_to_id : List (PyStr × Nat)
  id_to_char : List (Nat × PyStr)
  pad_token_id : Nat
  unk_token_id : Nat

/-- `SimpleTokenizer.__init__`. -/
def SimpleTokenizer.init (vocabSize : Int) : SimpleTokenizer :=
  { vocab_size := vocabSize
    char_to_id := []
    id_to_char := []
    pad_token_id := 0
    unk_token_id := 1 }

/-- The character-frequency dict built by the first loop of `build_vocab`:
`char_freq[char] = char_freq.get(char, 0) + 1` over every char of every text. -/
def countChars (texts : List PyStr) : List (Char × Nat) :=
  texts.foldl
    (fun freq text =>
      text.foldl (fun fr ch => dictInsert fr ch ((dictFind fr ch).getD 0 + 1)) freq)
    []

/-- The comparison used by `sorted(..., key=lambda x: x[1], reverse=True)`:
descending by count. -/
def descByCount (a b : Char × Nat) : Prop := b.2 ≤ a.2

instance : DecidableRel descByCount := fun a b => Nat.decLe b.2 a.2

/-- `SimpleTokenizer.build_vocab`.  `sorted(..., key=lambda x: x[1], reverse=True)`
is a stable descending sort by count; `List.insertionSort` is the same stable
sort. -/
def SimpleTokenizer.build_vocab (tok : SimpleTokenizer) (texts : List PyStr) :
    SimpleTokenizer :=
  let char_freq := countChars texts
  let sorted_chars := char_freq.insertionSort descByCount
  let top_chars := (pySliceTo (tok.vocab_size - 2) sorted_chars).map Prod.fst
  let c2i := (top_chars.enumFrom 2).foldl
    (fun d p => dictInsert d [p.2] p.1) [(padTok, 0), (unkTok, 1)]
  let i2c := (top_chars.enumFrom 2).foldl
    (fun d p => dictInsert d p.1 [p.2]) [(0, padTok), (1, unkTok)]
  { tok with char_to_id := c2i, id_to_char := i2c }

/-- `SimpleTokenizer.encode`.  `max_length` is a Python int. -/
def SimpleTokenizer.encode (tok : SimpleTokenizer) (text : PyStr) (max_length : Int) :
    List Nat :=
  let ids := text.map fun ch => (dictFind tok.char_to_id [ch]).getD tok.unk_token_id
  if (max_length : Int) < (ids.length : Int) then pySliceTo max_length ids
  else ids ++ List.replicate (max_length - (ids.length : Int)).toNat tok.pad_token_id

/-- Fuel-driven scanner behind `replaceDel`; canonical when `s.length ≤ fuel`
(every step shortens the string by at least one character). -/
def replaceDelFuel (pat : PyStr) : Nat → PyStr → PyStr
  | _, [] => []
  | 0, s => s
  | fuel + 1, c :: rest =>
      if 0 < pat.length ∧ pat.isPrefixOf (c :: rest) then
        replaceDelFuel pat fuel ((c :: rest).drop pat.length)
      else
        c :: replaceDelFuel pat fuel rest

/-- Python `s.replace(pat, '')`: delete the left-to-right non-overlapping
occurrences of `pat` (no-op for the empty pattern, which the scripts never use). -/
def replaceDel (pat s : PyStr) : PyStr := replaceDelFuel pat s.length s

/-- `SimpleTokenizer.decode`. -/
def SimpleTokenizer.decode (tok : SimpleTokenizer) (ids : List Nat) : PyStr :=
  let chars := ids.map fun i => (dictFind tok.id_to_char i).getD unkTok
  replaceDel unkTok (replaceDel padTok chars.flatten)

/-! ### TrainingDataLoader (data_loader.py)

The filesystem is modelled as a map from path strings to what `open` +
line iteration can observe: the file is absent (`FileNotFoundError`),
opening fails with some other exception, reading stops with an exception
after some lines, or all lines are read. -/

inductive FileResult where
  | missing
  | openFail
  | partialRead (got : List PyStr)
  | full (ls : List PyStr)

abbrev FileSys := String → FileResult

structure TrainingDataLoader where
  data_dir : String

def TrainingDataLoader.init : TrainingDataLoader := { data_dir := "training_data" }

def TrainingDataLoader.english_dir (L : TrainingDataLoader) : String :=
  L.data_dir ++ "/english"

def TrainingDataLoader.japanese_dir (L : TrainingDataLoader) : String :=
  L.data_dir ++ "/japanese"

/-- The body of the `for line in f` loop of `load_file`: strip, then keep the
line unless it is empty or starts with '#'. -/
def loadFileLoop (ls : List PyStr) : List PyStr :=
  ls.foldl
    (fun sentences line =>
      let line := pyStrip line
      if line.isEmpty = false ∧ (['#'].isPrefixOf line) = false then
        sentences ++ [line]
      else sentences)
    []

/-- `TrainingDataLoader.load_file`: every exception is caught, and the
sentences collected before the exception are returned. -/
def TrainingDataLoader.load_file (_L : TrainingDataLoader) (fs : FileSys)
    (filepath : String) : List PyStr :=
  match fs filepath with
  | .missing => []
  | .openFail => []
  | .partialRead got => loadFileLoop got
  | .full ls => loadFileLoop ls

/-- The `categories` dict of `load_english_data`, in insertion order. -/
def TrainingDataLoader.englishCategories (L : TrainingDataLoader) :
    List (String × String) :=
  [("common_phrases", L.english_dir ++ "/common_phrases.txt"),
   ("technical_terms", L.english_dir ++ "/technical_terms.txt"),
   ("conversational", L.english_dir ++ "/conversational.txt"),
   ("formal_writing", L.english_dir ++ "/formal_writing.txt")]

/-- The `categories` dict of `load_japanese_data`, in insertion order. -/
def TrainingDataLoader.japaneseCategories (L : TrainingDataLoader) :
    List (String × String) :=
  [("common_phrases", L.japanese_dir ++ "/common_phrases.txt"),
   ("business_japanese", L.japanese_dir ++ "/business_japanese.txt"),
   ("conversational", L.japanese_dir ++ "/conversational.txt"),
   ("mixed_language", L.japanese_dir ++ "/mixed_language.txt")]

/-- `TrainingDataLoader.load_english_data`: `data[category] = load_file(filepath)`
for each category, in dict insertion order. -/
def TrainingDataLoader.load_english_data (L : TrainingDataLoader) (fs : FileSys) :
    List (String × List PyStr) :=
  L.englishCategories.map fun p => (p.1, L.load_file fs p.2)

/-- `TrainingDataLoader.load_japanese_data`. -/
def TrainingDataLoader.load_japanese_data (L : TrainingDataLoader) (fs : FileSys) :
    List (String × List PyStr) :=
  L.japaneseCategories.map fun p => (p.1, L.load_file fs p.2)

/-- `TrainingDataLoader.get_all_sentences`; raising `ValueError` is modelled
as `Except.error`. -/
def TrainingDataLoader.get_all_sentences (L : TrainingDataLoader) (fs : FileSys)
    (language : String) : Except String (List PyStr) :=
  if language = "english" then
    .ok ((L.load_english_data fs).map Prod.snd).flatten
  else if language = "japanese" then
    .ok ((L.load_japanese_data fs).map Prod.snd).flatten
  else
    .error ("Unsupported language: " ++ language)

/-- `TrainingDataLoader.get_train_val_split`.  The global `random` module is
modelled abstractly: `Rng` is the RNG state, `seedFn` is `random.seed`, and
`shuffleFn` is `random.shuffle` (returning the permuted list and the advanced
state).  `rngIn` is the ambient RNG state at call time; the source discards it
by calling `random.seed(42)` before shuffling. -/
def TrainingDataLoader.get_train_val_split (Rng : Type) (seedFn : Nat → Rng)
    (shuffleFn : Rng → List PyStr → List PyStr × Rng)
    (L : TrainingDataLoader) (fs : FileSys) (_rngIn : Rng) (language : String)
    (val_frac : ℚ := 1 / 10) :
    Except String ((List PyStr × List PyStr) × Rng) :=
  match L.get_all_sentences fs language with
  | .error e => .error e
  | .ok sentences =>
      let rng := seedFn 42
      let (shuffled, rngOut) := shuffleFn rng sentences
      let val_size : Int := pyInt ((sentences.length : ℚ) * val_frac)
      .ok ((pySliceFrom val_size shuffled, pySliceTo val_size shuffled), rngOut)

/-! ### ModelCompressor (compress_model.py)

The torch / transformers / pickle / lzma library calls are opaque to this
repository; they are modelled as abstract operations collected in
`CompressEnv`.  A model is its `named_modules()` list, where each module is
either a `torch.nn.Linear` or something else. -/

inductive PyModule (W O : Type) where
  | linear (weight : W)
  | other (payload : O)

/-- `model.named_modules()`. -/
abbrev PyModel (W O : Type) := List (String × PyModule W O)

structure CompressEnv (W O State Vocab Bytes : Type) where
  /-- effect of `model.half()` on a Linear module's tensors -/
  halfLinear : W → W
  /-- effect of `model.half()` on any other module's tensors -/
  halfOther : O → O
  /-- `prune.l1_unstructured(module, 'weight', amount)` followed by
  `prune.remove(module, 'weight')` -/
  l1_unstructured_remove : ℚ → W → W
  /-- `model.state_dict()` -/
  state_dict : PyModel W O → State
  /-- `pickle.dumps` on a state dict -/
  pickleState : State → Bytes
  /-- `pickle.dumps` on a vocabulary -/
  pickleVocab : Vocab → Bytes
  /-- `lzma.compress(·, preset = n)` -/
  lzmaCompress : Nat → Bytes → Bytes

/-- `ModelCompressor.step1_quantization`: `model.half()` (half-precision cast of
the whole model). -/
def step1_quantization (env : CompressEnv W O State Vocab Bytes)
    (model : PyModel W O) : PyModel W O :=
  model.map fun nm =>
    (nm.1, match nm.2 with
      | .linear w => .linear (env.halfLinear w)
      | .other o => .other (env.halfOther o))

/-- `ModelCompressor.step2_pruning`: L1-unstructured-prune the weights of every
`torch.nn.Linear` module, leaving every other module untouched. -/
def step2_pruning (env : CompressEnv W O State Vocab Bytes) (amount : ℚ)
    (model : PyModel W O) : PyModel W O :=
  model.map fun nm =>
    match nm.2 with
    | .linear w => (nm.1, .linear (env.l1_unstructured_remove amount w))
    | .other o => (nm.1, .other o)

/-- `ModelCompressor.step3_compress_vocabulary`:
`lzma.compress(pickle.dumps(tokenizer.get_vocab()), preset=9)`. -/
def step3_compress_vocabulary (env : CompressEnv W O State Vocab Bytes)
    (vocab : Vocab) : Bytes :=
  env.lzmaCompress 9 (env.pickleVocab vocab)

/-- `ModelCompressor.step4_final_compression`:
`lzma.compress(pickle.dumps(model_state), preset=9)`. -/
def step4_final_compression (env : CompressEnv W O State Vocab Bytes)
    (model_state : State) : Bytes :=
  env.lzmaCompress 9 (env.pickleState model_state)

/-- Tags for the pipeline steps, recorded in execution order. -/
inductive CompressStep where
  | half_precision_cast
  | prune_linear (amount : ℚ)
  | vocab_lzma (preset : Nat)
  | state_dict_lzma (preset : Nat)
deriving DecidableEq

structure CompressOutput (Bytes : Type) where
  /-- files written, as (path, bytes), in write order -/
  files : List (String × Bytes)
  /-- the pipeline steps, in execution order -/
  steps : List CompressStep

/-- `ModelCompressor.compress`, from the point where model and tokenizer are
loaded: the four steps in source order, then the artifact writes.  `vocab` is
`tokenizer.get_vocab()`. -/
def ModelCompressor.compress (env : CompressEnv W O State Vocab Bytes)
    (language : String) (model : PyModel W O) (vocab : Vocab) :
    CompressOutput Bytes :=
  let model1 := step1_quantization env model
  let model2 := step2_pruning env (3 / 10) model1
  let compressed_vocab := step3_compress_vocabulary env vocab
  let model_state := env.state_dict model2
  let compressed_model := step4_final_compression env model_state
  { files :=
      [("models/" ++ language ++ "/compressed/model.lzma", compressed_model),
       ("models/" ++ language ++ "/compressed/vocab.lzma", compressed_vocab)]
    steps :=
      [.half_precision_cast, .prune_linear (3 / 10), .vocab_lzma 9,
       .state_dict_lzma 9] }

/-! ### compress_tiny_model.py -/

inductive DType where
  | float16 | float32 | float64
  | int8 | int16 | int32 | int64 | boolean
deriving DecidableEq

def DType.element_size : DType → Nat
  | .float16 => 2
  | .float32 => 4
  | .float64 => 8
  | .int8 => 1
  | .int16 => 2
  | .int32 => 4
  | .int64 => 8
  | .boolean => 1

def DType.isFloatingPoint : DType → Bool
  | .float16 | .float32 | .float64 => true
  | _ => false

/-- `model.half()` casts floating-point tensors to float16 and leaves the
others alone. -/
def DType.halfCast (d : DType) : DType :=
  if d.isFloatingPoint then .float16 else d

structure Tensor where
  nelement : Nat
  dtype : DType
deriving DecidableEq

/-- `t.nelement() * t.element_size()`. -/
def Tensor.byteSize (t : Tensor) : Nat := t.nelement * t.dtype.element_size

/-- A torch model as seen by `get_model_size_mb`: its parameter tensors and
its buffer tensors. -/
structure TorchModel where
  params : List Tensor
  buffers : List Tensor
deriving DecidableEq

/-- `get_model_size_mb` (compress_tiny_model.py, identical in tiny_model.py):
`(param_size + buffer_size) / 1024 / 1024`. -/
def get_model_size_mb (m : TorchModel) : ℚ :=
  (((m.params.map Tensor.byteSize).sum + (m.buffers.map Tensor.byteSize).sum : Nat) : ℚ)
    / 1024 / 1024

/-- `model.half()`: casts all floating point parameters and buffers to half
precision. -/
def TorchModel.half (m : TorchModel) : TorchModel :=
  { params := m.params.map fun t => { t with dtype := t.dtype.halfCast }
    buffers := m.buffers.map fun t => { t with dtype := t.dtype.halfCast } }

/-- The filesystem state touched by `compress_tiny_model`: which directories
exist and which files hold which bytes. -/
structure FS (B : Type) where
  dirs : List String
  files : List (String × B)

def FS.hasPath (fs : FS B) (p : String) : Bool :=
  (p ∈ fs.dirs) ∨ (p ∈ fs.files.map Prod.fst)

/-- The library operations `compress_tiny_model` delegates to. -/
structure TinyEnv (B : Type) where
  /-- `TinyKeyboardModel.from_pretrained(model_path)` -/
  from_pretrained : FS B → String → TorchModel
  /-- `model.save_pretrained(output_dir)`: files written, relative to the dir -/
  save_pretrained : TorchModel → List (String × B)
  /-- `json.dump(metadata, f, indent=2)` -/
  metadataJson : String → ℚ → ℚ → ℚ → B

/-- The `metadata` dict written by `compress_tiny_model`. -/
structure TinyMeta where
  language : String
  original_size_mb : ℚ
  compressed_size_mb : ℚ
  reduction_percent : ℚ
deriving DecidableEq

/-- `compress_tiny_model(language)`: returns the metadata (None when the model
directory is absent) and the resulting filesystem. -/
def compress_tiny_model (env : TinyEnv B) (fs : FS B) (language : String) :
    Option TinyMeta × FS B :=
  let model_path := "models/" ++ language ++ "/tiny_final"
  if (fs.hasPath model_path) = false then
    (none, fs)
  else
    let model := env.from_pretrained fs model_path
    let initial_size := get_model_size_mb model
    let model := model.half
    let half_size := get_model_size_mb model
    let reduction1 := (1 - half_size / initial_size) * 100
    let output_dir := "models/" ++ language ++ "/ios_ready"
    let meta : TinyMeta :=
      { language := language
        original_size_mb := initial_size
        compressed_size_mb := half_size
        reduction_percent := reduction1 }
    let copied :=
      match dictFind fs.files (model_path ++ "/tokenizer.json") with
      | some b => [(output_dir ++ "/tokenizer.json", b)]
      | none => []
    let fs' : FS B :=
      { dirs := fs.dirs ++ [output_dir]
        files := fs.files
          ++ (env.save_pretrained model).map (fun p => (output_dir ++ "/" ++ p.1, p.2))
          ++ copied
          ++ [(output_dir ++ "/metadata.json",
               env.metadataJson language initial_size half_size reduction1)] }
    (some meta, fs')

/-! ### The TinyKeyboardModel parameter inventory (tiny_model.py)

Parameter tensors of `TinyKeyboardModel(config)`, in module order; every
parameter is created in torch's default dtype float32, and the model registers
no buffers. -/

structure TinyKeyboardConfig where
  vocab_size : Nat := 5000
  hidden_size : Nat := 128
  num_hidden_layers : Nat := 2
  num_attention_heads : Nat := 4
  intermediate_size : Nat := 256
  max_position_embeddings : Nat := 64

/-- Parameters of one `TinyTransformerBlock`: `nn.MultiheadAttention`
(in-proj weight and bias, out-proj weight and bias), two `nn.LayerNorm`s
(weight and bias each), and the two `nn.Linear`s of the FFN. -/
def tinyBlockParams (c : TinyKeyboardConfig) : List Tensor :=
  [⟨3 * c.hidden_size * c.hidden_size, .float32⟩,
   ⟨3 * c.hidden_size, .float32⟩,
   ⟨c.hidden_size * c.hidden_size, .float32⟩,
   ⟨c.hidden_size, .float32⟩,
   ⟨c.hidden_size, .float32⟩, ⟨c.hidden_size, .float32⟩,
   ⟨c.hidden_size, .float32⟩, ⟨c.hidden_size, .float32⟩,
   ⟨c.intermediate_size * c.hidden_size, .float32⟩, ⟨c.intermediate_size, .float32⟩,
   ⟨c.hidden_size * c.intermediate_size, .float32⟩, ⟨c.hidden_size, .float32⟩]

/-- All tensors of `TinyKeyboardModel(config)`: token and position embeddings,
the transformer blocks, the final `nn.LayerNorm`, and the bias-free `lm_head`. -/
def TinyKeyboardModel.tensors (c : TinyKeyboardConfig) : TorchModel :=
  { params :=
      [⟨c.vocab_size * c.hidden_size, .float32⟩,
       ⟨c.max_position_embeddings * c.hidden_size, .float32⟩]
      ++ (List.replicate c.num_hidden_layers (tinyBlockParams c)).flatten
      ++ [⟨c.hidden_size, .float32⟩, ⟨c.hidden_size, .float32⟩,
          ⟨c.vocab_size * c.hidden_size, .float32⟩]
    buffers := [] }

/-! ### CLI entry points (argparse) -/

/-- The `choices` of every `--language` argument in the repository. -/
def languageChoices : List String := ["english", "japanese", "both"]

/-- `argparse` rejects a value outside `choices` before any operation runs;
modelled as `Except` (argparse exits with an error). -/
def parseLanguageArg (arg : String) : Except String String :=
  if arg ∈ languageChoices then .ok arg
  else .error ("argument --language: invalid choice: " ++ arg)

/-- `languages = ['english', 'japanese'] if args.language == 'both' else
[args.language]` — identical in all five argparse entry points. -/
def languagesFor (language : String) : List String :=
  if language = "both" then ["english", "japanese"] else [language]

/-- `train_tiny_model.py __main__`: the languages trained, in loop order. -/
def trainTinyMainLanguages (arg : String) : Except String (List String) :=
  (parseLanguageArg arg).map languagesFor

/-- `compress_tiny_model.py main()`: the languages compressed, in loop order. -/
def compressTinyMainLanguages (arg : String) : Except String (List String) :=
  (parseLanguageArg arg).map languagesFor

/-- `convert_to_coreml.py main()`: the languages converted, in loop order. -/
def convertMainLanguages (arg : String) : Except String (List String) :=
  (parseLanguageArg arg).map languagesFor

/-- `compress_model.py main()`: the languages compressed, in loop order. -/
def compressModelMainLanguages (arg : String) : Except String (List String) :=
  (parseLanguageArg arg).map languagesFor

/-- `train_model.py main()`: the languages trained, in loop order. -/
def trainModelMainLanguages (arg : String) : Except String (List String) :=
  (parseLanguageArg arg).map languagesFor

/-- Command-line flags accepted by `data_loader.py`'s `main()` — it parses no
arguments at all. -/
def dataLoaderMainFlags : List String := []

/-- Flags of `train_tiny_model.py __main__`. -/
def trainTinyMainFlags : List String := ["--language", "--epochs"]

/-! ### Specification-side definitions used by the theorems -/

/-- Number of occurrences of a character in the whole list of texts. -/
def occCount (texts : List PyStr) (c : Char) : Nat :=
  (texts.map fun t => t.count c).sum

/-- The inner loop of `build_vocab`'s counting pass, over one text. -/
def countStep (fr : List (Char × Nat)) (text : PyStr) : List (Char × Nat) :=
  text.foldl (fun fr ch => dictInsert fr ch ((dictFind fr ch).getD 0 + 1)) fr

/-- Combining an existing count with a number of additional occurrences. -/
def addCount (o : Option Nat) (k : Nat) : Option Nat :=
  match o with
  | none => if k = 0 then none else some k
  | some n => some (n + k)

/-- The characters retained by `build_vocab` (`top_chars` in the source). -/
def buildTop (vs : Int) (texts : List PyStr) : List Char :=
  (pySliceTo (vs - 2) ((countChars texts).insertionSort descByCount)).map Prod.fst

/-- The sliced sorted frequency list (`sorted_chars[:vocab_size - 2]`). -/
def buildSlice (vs : Int) (texts : List PyStr) : List (Char × Nat) :=
  pySliceTo (vs - 2) ((countChars texts).insertionSort descByCount)

instance : IsTotal (Char × Nat) descByCount := ⟨fun a b => Nat.le_total b.2 a.2⟩

instance : IsTrans (Char × Nat) descByCount :=
  ⟨fun _ _ _ hab hbc => Nat.le_trans hbc hab⟩

/-- `k` copies of the pattern in a row. -/
def patRep (pat : PyStr) (k : Nat) : PyStr := (List.replicate k pat).flatten

/-- The pattern occurs nowhere in `s`. -/
def NoOccur (pat s : PyStr) : Prop := ∀ i, ¬ List.IsPrefix pat (s.drop i)

/-- No proper tail of the pattern is a prefix of a run of copies of the
pattern; this is what makes the text/padding boundary safe under `replace`. -/
def borderFree (pat : PyStr) : Prop :=
  ∀ d < pat.length, 0 < d → pat.drop d ≠ pat.take (pat.length - d)

/-- What `load_file` keeps of a raw line: the stripped line, unless empty or a
'#' comment. -/
def keepLine (line : PyStr) : Option PyStr :=
  let s := pyStrip line
  if s.isEmpty = false ∧ (['#'].isPrefixOf s) = false then some s else none

/-! ### Concrete instantiations used by the witness theorems -/

def natCompressEnv : CompressEnv Nat Nat Nat Nat Nat :=
  { halfLinear := fun w => w + 1
    halfOther := fun o => o
    l1_unstructured_remove := fun _ w => 2 * w
    state_dict := fun m => m.length
    pickleState := fun s => s + 3
    pickleVocab := fun v => v + 5
    lzmaCompress := fun p b => p * 1000 + b }

def unitTinyEnv : TinyEnv Unit :=
  { from_pretrained := fun _ _ => TinyKeyboardModel.tensors {}
    save_pretrained := fun _ => []
    metadataJson := fun _ _ _ _ => () }

def demoFS : FS Unit := { dirs := ["models/english/tiny_final"], files := [] }

def emptyFS : FS Unit := { dirs := [], files := [] }

def fullFs : FileSys := fun _ => .full [['h', 'i']]

def demoSentences : List PyStr := [['h', 'i'], ['h', 'i'], ['h', 'i'], ['h', 'i']]

def idShuffle : Nat → List PyStr → List PyStr × Nat := fun r l => (l, r)

/-! ### Sanity checks on small concrete inputs -/

example :
    let tok := (SimpleTokenizer.init 5000).build_vocab [['a', 'b', 'a'], ['a', 'c']]
    dictFind tok.char_to_id ['a'] = some 2 ∧
      dictFind tok.char_to_id ['b'] = some 3 ∧
      dictFind tok.char_to_id ['c'] = some 4 ∧
      dictFind tok.char_to_id padTok = some 0 := by decide

example :
    let tok := (SimpleTokenizer.init 5000).build_vocab [['a', 'b', 'a'], ['a', 'c']]
    tok.encode ['b', 'a', 'z'] 6 = [3, 2, 1, 0, 0, 0] := by decide

example :
    let tok := (SimpleTokenizer.init 5000).build_vocab [['a', 'b', 'a'], ['a', 'c']]
    tok.decode (tok.encode ['b', 'a', 'c'] 6) = ['b', 'a', 'c'] := by decide

/-! ### Helper lemmas: dictionaries -/

theorem dictFind_dictInsert_self [DecidableEq κ] (d : List (κ × ν)) (k : κ) (v : ν) :
    dictFind (dictInsert d k v) k = some v := by
  induction d with
  | nil => simp [dictInsert, dictFind]
  | cons p rest ih =>
      obtain ⟨k', v'⟩ := p
      by_cases h : k' = k <;> simp [dictInsert, dictFind, h, ih]

theorem dictFind_dictInsert_ne [DecidableEq κ] (d : List (κ × ν)) (k k' : κ) (v : ν)
    (h : k' ≠ k) : dictFind (dictInsert d k v) k' = dictFind d k' := by
  have h' : ¬ k = k' := Ne.symm h
  induction d with
  | nil => simp [dictInsert, dictFind, h']
  | cons p rest ih =>
      obtain ⟨k'', v''⟩ := p
      by_cases hk : k'' = k
      · subst hk
        simp [dictInsert, dictFind, h']
      · by_cases hk' : k'' = k' <;> simp [dictInsert, dictFind, hk, hk', ih, h]

theorem dictInsert_keys [DecidableEq κ] (d : List (κ × ν)) (k : κ) (v : ν) :
    (dictInsert d k v).map Prod.fst =
      if k ∈ d.map Prod.fst then d.map Prod.fst else d.map Prod.fst ++ [k] := by
  induction d with
  | nil => simp [dictInsert]
  | cons p rest ih =>
      obtain ⟨k', v'⟩ := p
      by_cases h : k' = k
      · subst h; simp [dictInsert]
      · by_cases hm : k ∈ rest.map Prod.fst <;>
          simp [dictInsert, h, hm, ih, Ne.symm h]

theorem dictInsert_notMem [DecidableEq κ] (d : List (κ × ν)) (k : κ) (v : ν)
    (h : k ∉ d.map Prod.fst) : dictInsert d k v = d ++ [(k, v)] := by
  induction d with
  | nil => simp [dictInsert]
  | cons p rest ih =>
      obtain ⟨k', v'⟩ := p
      simp only [List.map_cons, List.mem_cons, not_or] at h
      have hk : ¬ k' = k := fun hh => h.1 hh.symm
      simp [dictInsert, hk, ih h.2]

theorem dictFind_eq_some_of_mem [DecidableEq κ] (d : List (κ × ν))
    (hnd : (d.map Prod.fst).Nodup) (k : κ) (v : ν) (h : (k, v) ∈ d) :
    dictFind d k = some v := by
  induction d with
  | nil => simp at h
  | cons p rest ih =>
      obtain ⟨k', v'⟩ := p
      simp only [List.map_cons, List.nodup_cons] at hnd
      rcases List.mem_cons.mp h with h | h
      · obtain ⟨h1, h2⟩ := Prod.mk.injEq .. ▸ h.symm
        simp [dictFind, h1.symm, h2]
      · have hk : k' ≠ k := by
          intro hk; subst hk
          exact hnd.1 (List.mem_map.mpr ⟨(k', v), h, rfl⟩)
        simp [dictFind, hk, ih hnd.2 h]

theorem mem_of_dictFind_eq_some [DecidableEq κ] {d : List (κ × ν)} {k : κ} {v : ν}
    (h : dictFind d k = some v) : (k, v) ∈ d := by
  induction d with
  | nil => simp [dictFind] at h
  | cons p rest ih =>
      obtain ⟨k', v'⟩ := p
      by_cases hk : k' = k
      · subst hk
        have hv : v' = v := by simpa [dictFind] using h
        subst hv
        exact List.mem_cons_self _ _
      · simp only [dictFind, if_neg hk] at h
        exact List.mem_cons_of_mem _ (ih h)

theorem dictFind_append [DecidableEq κ] (d₁ d₂ : List (κ × ν)) (k : κ) :
    dictFind (d₁ ++ d₂) k =
      match dictFind d₁ k with
      | some v => some v
      | none => dictFind d₂ k := by
  induction d₁ with
  | nil => simp [dictFind]
  | cons p rest ih =>
      obtain ⟨k', v'⟩ := p
      by_cases h : k' = k <;> simp [dictFind, h, ih]

theorem dictInsert_keys_nodup [DecidableEq κ] (d : List (κ × ν)) (k : κ) (v : ν)
    (h : (d.map Prod.fst).Nodup) : ((dictInsert d k v).map Prod.fst).Nodup := by
  rw [dictInsert_keys]
  by_cases hm : k ∈ d.map Prod.fst
  · simpa [hm] using h
  · simpa [hm, List.nodup_append] using h

/-! ### Helper lemmas: character frequency counting -/

theorem countChars_eq_foldl (texts : List PyStr) :
    countChars texts = texts.foldl countStep [] := rfl

theorem addCount_addCount (o : Option Nat) (k k' : Nat) :
    addCount (addCount o k) k' = addCount o (k + k') := by
  cases o with
  | none =>
      by_cases hk : k = 0
      · subst hk; simp [addCount]
      · by_cases hk' : k' = 0 <;> simp [addCount, hk, hk', Nat.add_eq_zero]
  | some n => simp [addCount, Nat.add_assoc]

theorem dictFind_countStep (text : PyStr) (fr : List (Char × Nat)) (c : Char) :
    dictFind (countStep fr text) c = addCount (dictFind fr c) (text.count c) := by
  induction text generalizing fr with
  | nil => cases h : dictFind fr c <;> simp [countStep, addCount, h]
  | cons ch rest ih =>
      have hstep : countStep fr (ch :: rest) =
          countStep (dictInsert fr ch ((dictFind fr ch).getD 0 + 1)) rest := rfl
      rw [hstep, ih]
      by_cases hc : ch = c
      · subst hc
        rw [dictFind_dictInsert_self]
        cases h : dictFind fr ch <;>
          simp [addCount, h, List.count_cons, Nat.add_comm, Nat.add_assoc, Nat.add_left_comm]
      · rw [dictFind_dictInsert_ne _ _ _ _ (Ne.symm hc)]
        have : (ch == c) = false := by simpa using hc
        simp [List.count_cons, this]

theorem dictFind_countChars (texts : List PyStr) (c : Char) :
    dictFind (countChars texts) c = addCount none (occCount texts c) := by
  rw [countChars_eq_foldl]
  suffices h : ∀ fr, dictFind (texts.foldl countStep fr) c =
      addCount (dictFind fr c) (occCount texts c) by
    simpa [addCount] using h []
  induction texts with
  | nil => intro fr; simp [occCount, addCount]; cases dictFind fr c <;> simp [addCount]
  | cons t rest ih =>
      intro fr
      simp only [List.foldl_cons]
      rw [ih, dictFind_countStep, addCount_addCount]
      simp [occCount]

theorem dictFind_countChars_pos (texts : List PyStr) (c : Char) (n : Nat)
    (h : dictFind (countChars texts) c = some n) :
    n = occCount texts c ∧ 0 < occCount texts c := by
  rw [dictFind_countChars] at h
  by_cases h0 : occCount texts c = 0
  · simp [addCount, h0] at h
  · simp only [addCount, if_neg h0] at h
    exact ⟨(Option.some.injEq .. ▸ h).symm, Nat.pos_of_ne_zero h0⟩

theorem countStep_keys_nodup (text : PyStr) (fr : List (Char × Nat))
    (h : (fr.map Prod.fst).Nodup) : ((countStep fr text).map Prod.fst).Nodup := by
  induction text generalizing fr with
  | nil => exact h
  | cons ch rest ih => exact ih _ (dictInsert_keys_nodup _ _ _ h)

theorem countChars_keys_nodup (texts : List PyStr) :
    ((countChars texts).map Prod.fst).Nodup := by
  rw [countChars_eq_foldl]
  suffices h : ∀ fr, (fr.map Prod.fst).Nodup →
      ((texts.foldl countStep fr).map Prod.fst).Nodup by
    exact h [] (by simp)
  induction texts with
  | nil => intro fr h; exact h
  | cons t rest ih => intro fr h; exact ih _ (countStep_keys_nodup _ _ h)

/-! ### Helper lemmas: the shape of the vocabulary tables -/

theorem singleton_ne_padTok (c : Char) : [c] ≠ padTok := by
  intro h
  have := congrArg List.length h
  simp [padTok] at this

theorem singleton_ne_unkTok (c : Char) : [c] ≠ unkTok := by
  intro h
  have := congrArg List.length h
  simp [unkTok] at this

/-- `pySliceTo` is always a `take`. -/
theorem pySliceTo_eq_take (n : Int) (l : List α) :
    ∃ m, pySliceTo n l = l.take m := by
  unfold pySliceTo
  by_cases h : 0 ≤ n
  · exact ⟨n.toNat, if_pos h⟩
  · exact ⟨l.length - (-n).toNat, if_neg h⟩

theorem buildTop_eq_map (vs : Int) (texts : List PyStr) :
    buildTop vs texts = (buildSlice vs texts).map Prod.fst := rfl

theorem buildSlice_sublist (vs : Int) (texts : List PyStr) :
    List.Sublist (buildSlice vs texts) ((countChars texts).insertionSort descByCount) := by
  obtain ⟨m, hm⟩ := pySliceTo_eq_take (vs - 2) ((countChars texts).insertionSort descByCount)
  rw [buildSlice, hm]
  exact List.take_sublist _ _

theorem buildTop_nodup (vs : Int) (texts : List PyStr) :
    (buildTop vs texts).Nodup := by
  have hperm : List.Perm ((countChars texts).insertionSort descByCount) (countChars texts) :=
    List.perm_insertionSort _ _
  have hkeys : (((countChars texts).insertionSort descByCount).map Prod.fst).Nodup :=
    ((hperm.map Prod.fst).nodup_iff).mpr (countChars_keys_nodup texts)
  rw [buildTop_eq_map]
  exact hkeys.sublist ((buildSlice_sublist vs texts).map Prod.fst)

theorem buildSlice_pairwise (vs : Int) (texts : List PyStr) :
    (buildSlice vs texts).Pairwise descByCount :=
  List.Pairwise.sublist (buildSlice_sublist vs texts)
    (List.sorted_insertionSort descByCount (countChars texts))

theorem buildSlice_count (vs : Int) (texts : List PyStr) (p : Char × Nat)
    (hp : p ∈ buildSlice vs texts) :
    p.2 = occCount texts p.1 ∧ 0 < occCount texts p.1 := by
  have hmem : p ∈ countChars texts :=
    (List.perm_insertionSort descByCount (countChars texts)).mem_iff.mp
      ((buildSlice_sublist vs texts).mem hp)
  have hfind : dictFind (countChars texts) p.1 = some p.2 :=
    dictFind_eq_some_of_mem _ (countChars_keys_nodup texts) _ _ hmem
  exact dictFind_countChars_pos texts p.1 p.2 hfind

/-- `char_to_id` after `build_vocab`, in closed form. -/
theorem build_vocab_char_to_id (vs : Int) (texts : List PyStr) :
    ((SimpleTokenizer.init vs).build_vocab texts).char_to_id =
      [(padTok, 0), (unkTok, 1)] ++
        ((buildTop vs texts).enumFrom 2).map (fun p => ([p.2], p.1)) := by
  have key : ∀ (tc : List Char) (k : Nat) (base : List (PyStr × Nat)),
      tc.Nodup → (∀ c ∈ tc, [c] ∉ base.map Prod.fst) →
      (tc.enumFrom k).foldl (fun d p => dictInsert d [p.2] p.1) base =
        base ++ (tc.enumFrom k).map (fun p => ([p.2], p.1)) := by
    intro tc
    induction tc with
    | nil => intro k base _ _; simp
    | cons c rest ih =>
        intro k base hnd hfresh
        simp only [List.enumFrom_cons, List.foldl_cons, List.map_cons]
        rw [dictInsert_notMem _ _ _ (hfresh c (List.mem_cons_self _ _))]
        rw [ih (k + 1) _ (List.nodup_cons.mp hnd).2]
        · simp
        · intro c' hc'
          simp only [List.map_append, List.mem_append, List.map_cons, List.map_nil]
          rintro (h | h)
          · exact hfresh c' (List.mem_cons_of_mem _ hc') h
          · simp only [List.mem_singleton, List.cons.injEq, and_true] at h
            exact (List.nodup_cons.mp hnd).1 (h ▸ hc')
  have hfresh : ∀ c ∈ buildTop vs texts,
      [c] ∉ ([(padTok, 0), (unkTok, 1)] : List (PyStr × Nat)).map Prod.fst := by
    intro c _
    simp [singleton_ne_padTok c, singleton_ne_unkTok c]
  exact key (buildTop vs texts) 2 _ (buildTop_nodup vs texts) hfresh

/-- `id_to_char` after `build_vocab`, in closed form. -/
theorem build_vocab_id_to_char (vs : Int) (texts : List PyStr) :
    ((SimpleTokenizer.init vs).build_vocab texts).id_to_char =
      [(0, padTok), (1, unkTok)] ++
        ((buildTop vs texts).enumFrom 2).map (fun p => (p.1, [p.2])) := by
  have key : ∀ (tc : List Char) (k : Nat) (base : List (Nat × PyStr)),
      (∀ j, k ≤ j → j ∉ base.map Prod.fst) →
      (tc.enumFrom k).foldl (fun d p => dictInsert d p.1 [p.2]) base =
        base ++ (tc.enumFrom k).map (fun p => (p.1, [p.2])) := by
    intro tc
    induction tc with
    | nil => intro k base _; simp
    | cons c rest ih =>
        intro k base hfresh
        simp only [List.enumFrom_cons, List.foldl_cons, List.map_cons]
        rw [dictInsert_notMem _ _ _ (hfresh k (Nat.le_refl k))]
        rw [ih (k + 1) _]
        · simp
        · intro j hj
          simp only [List.map_append, List.mem_append, List.map_cons, List.map_nil]
          rintro (h | h)
          · exact hfresh j (Nat.le_of_succ_le hj) h
          · simp only [List.mem_singleton] at h
            subst h
            omega
  have hfresh : ∀ j, 2 ≤ j →
      j ∉ ([(0, padTok), (1, unkTok)] : List (Nat × PyStr)).map Prod.fst := by
    intro j hj hmem
    simp only [List.map_cons, List.map_nil, List.mem_cons, List.not_mem_nil,
      or_false] at hmem
    rcases hmem with h | h <;> omega
  exact key (buildTop vs texts) 2 _ hfresh

theorem build_vocab_vocab_size (vs : Int) (texts : List PyStr) :
    ((SimpleTokenizer.init vs).build_vocab texts).vocab_size = vs := rfl

theorem build_vocab_token_ids (vs : Int) (texts : List PyStr) :
    ((SimpleTokenizer.init vs).build_vocab texts).pad_token_id = 0 ∧
      ((SimpleTokenizer.init vs).build_vocab texts).unk_token_id = 1 :=
  ⟨rfl, rfl⟩

/-! ### Helper lemmas: positional lookup in the enumerated tables -/

theorem findMappedChar_some {tc : List Char} {k : Nat} {c : Char} {i : Nat}
    (h : dictFind ((tc.enumFrom k).map fun p => (([p.2] : PyStr), p.1)) [c] = some i) :
    ∃ j, tc[j]? = some c ∧ i = k + j := by
  induction tc generalizing k with
  | nil => simp [dictFind] at h
  | cons a rest ih =>
      simp only [List.enumFrom_cons, List.map_cons, dictFind] at h
      by_cases hac : a = c
      · subst hac
        rw [if_pos rfl] at h
        have hk := Option.some.inj h
        exact ⟨0, by simp, by omega⟩
      · have hne : ¬([a] : PyStr) = [c] := by simp [hac]
        rw [if_neg hne] at h
        obtain ⟨j, hg, hi⟩ := ih h
        exact ⟨j + 1, by simpa using hg, by omega⟩

theorem findMappedChar_of_getElem {tc : List Char} (hnd : tc.Nodup) {k j : Nat} {c : Char}
    (hc : tc[j]? = some c) :
    dictFind ((tc.enumFrom k).map fun p => (([p.2] : PyStr), p.1)) [c] = some (k + j) := by
  induction tc generalizing k j with
  | nil => simp at hc
  | cons a rest ih =>
      simp only [List.enumFrom_cons, List.map_cons, dictFind]
      cases j with
      | zero =>
          simp only [List.getElem?_cons_zero, Option.some.injEq] at hc
          subst hc
          simp
      | succ j' =>
          simp only [List.getElem?_cons_succ] at hc
          have hmem : c ∈ rest := List.getElem?_mem hc
          have hac : ¬([a] : PyStr) = [c] := by
            simp only [List.cons.injEq, and_true]
            intro hEq
            exact (List.nodup_cons.mp hnd).1 (hEq ▸ hmem)
          rw [if_neg hac, ih (List.nodup_cons.mp hnd).2 hc]
          congr 1
          omega

theorem findMappedId_of_getElem {tc : List Char} {k j : Nat} {c : Char}
    (hc : tc[j]? = some c) :
    dictFind ((tc.enumFrom k).map fun p => (p.1, ([p.2] : PyStr))) (k + j) = some [c] := by
  induction tc generalizing k j with
  | nil => simp at hc
  | cons a rest ih =>
      simp only [List.enumFrom_cons, List.map_cons, dictFind]
      cases j with
      | zero =>
          simp only [List.getElem?_cons_zero, Option.some.injEq] at hc
          subst hc
          simp
      | succ j' =>
          simp only [List.getElem?_cons_succ] at hc
          have hk : ¬(k = k + (j' + 1)) := by omega
          rw [if_neg hk]
          have := ih (k := k + 1) hc
          rw [show k + (j' + 1) = (k + 1) + j' by omega, this]

/-- Lookup of a single character in the built `char_to_id`: reduces to the
enumerated part. -/
theorem build_vocab_find_char (vs : Int) (texts : List PyStr) (c : Char) :
    dictFind ((SimpleTokenizer.init vs).build_vocab texts).char_to_id [c] =
      dictFind (((buildTop vs texts).enumFrom 2).map fun p => (([p.2] : PyStr), p.1)) [c] := by
  rw [build_vocab_char_to_id, dictFind_append]
  have h1 : ¬(padTok = [c]) := fun h => singleton_ne_padTok c h.symm
  have h2 : ¬(unkTok = [c]) := fun h => singleton_ne_unkTok c h.symm
  simp [dictFind, h1, h2]

/-! ### C1 -/

/-- C1: `build_vocab` builds a frequency-ranked character table: IDs 0 and 1
are reserved for '<pad>' and '<unk>'; at most `vocab_size - 2` distinct
characters of the texts receive the IDs 2, 3, …; and a character that occurs
more often never receives a larger ID than one that occurs less often. -/
theorem build_vocab_frequency_ranked (vs : Int) (texts : List PyStr) (hvs : 2 ≤ vs) :
    dictFind ((SimpleTokenizer.init vs).build_vocab texts).char_to_id padTok = some 0 ∧
    dictFind ((SimpleTokenizer.init vs).build_vocab texts).char_to_id unkTok = some 1 ∧
    (((SimpleTokenizer.init vs).build_vocab texts).char_to_id.length : Int) ≤ 2 + (vs - 2) ∧
    (∀ c i, dictFind ((SimpleTokenizer.init vs).build_vocab texts).char_to_id [c] = some i →
      2 ≤ i ∧ 0 < occCount texts c) ∧
    (∀ c d i, dictFind ((SimpleTokenizer.init vs).build_vocab texts).char_to_id [c] = some i →
      dictFind ((SimpleTokenizer.init vs).build_vocab texts).char_to_id [d] = some i → c = d) ∧
    (∀ c d i j, dictFind ((SimpleTokenizer.init vs).build_vocab texts).char_to_id [c] = some i →
      dictFind ((SimpleTokenizer.init vs).build_vocab texts).char_to_id [d] = some j →
      occCount texts d < occCount texts c → i ≤ j) := by
  -- A slot in `top_chars` determines the character's count via `buildSlice`.
  have hslot : ∀ (j : Nat) (c : Char), (buildTop vs texts)[j]? = some c →
      ∃ p : Char × Nat, (buildSlice vs texts)[j]? = some p ∧ p.1 = c ∧
        p.2 = occCount texts c ∧ 0 < occCount texts c := by
    intro j c hc
    rw [buildTop_eq_map, List.getElem?_map] at hc
    obtain ⟨p, hp, hpc⟩ := Option.map_eq_some'.mp hc
    have hmem : p ∈ buildSlice vs texts := List.getElem?_mem hp
    have h := buildSlice_count vs texts p hmem
    subst hpc
    exact ⟨p, hp, rfl, h.1, h.2⟩
  have hpos : ∀ c i,
      dictFind ((SimpleTokenizer.init vs).build_vocab texts).char_to_id [c] = some i →
      ∃ j, (buildTop vs texts)[j]? = some c ∧ i = 2 + j := by
    intro c i h
    rw [build_vocab_find_char] at h
    exact findMappedChar_some h
  refine ⟨?_, ?_, ?_, ?_, ?_, ?_⟩
  · rw [build_vocab_char_to_id, dictFind_append]
    simp [dictFind]
  · rw [build_vocab_char_to_id, dictFind_append]
    have hne : ¬(padTok = unkTok) := by decide
    simp [dictFind, hne]
  · have h1 : ((SimpleTokenizer.init vs).build_vocab texts).char_to_id.length =
        2 + (buildTop vs texts).length := by
      rw [build_vocab_char_to_id]
      simp [List.enumFrom_length]
      omega
    have h2 : (buildTop vs texts).length ≤ (vs - 2).toNat := by
      rw [buildTop_eq_map, List.length_map]
      show (pySliceTo (vs - 2) ((countChars texts).insertionSort descByCount)).length ≤ _
      rw [pySliceTo, if_pos (by omega : (0:Int) ≤ vs - 2)]
      exact List.length_take_le _ _
    have h3 : ((vs - 2).toNat : Int) = vs - 2 := Int.toNat_of_nonneg (by omega)
    omega
  · intro c i h
    obtain ⟨j, hc, hi⟩ := hpos c i h
    obtain ⟨p, _, _, _, hocc⟩ := hslot j c hc
    exact ⟨by omega, hocc⟩
  · intro c d i h1 h2
    obtain ⟨j1, hc1, hi1⟩ := hpos c i h1
    obtain ⟨j2, hc2, hi2⟩ := hpos d i h2
    have : j1 = j2 := by omega
    subst this
    rw [hc1] at hc2
    exact Option.some.inj hc2
  · intro c d i j h1 h2 hlt
    obtain ⟨j1, hc1, hi1⟩ := hpos c i h1
    obtain ⟨j2, hc2, hi2⟩ := hpos d j h2
    obtain ⟨p1, hp1, hp1c, hp1n, _⟩ := hslot j1 c hc1
    obtain ⟨p2, hp2, hp2c, hp2n, _⟩ := hslot j2 d hc2
    by_contra hij
    have hj2j1 : j2 < j1 := by omega
    obtain ⟨hb1, he1⟩ := List.getElem?_eq_some_iff.mp hp1
    obtain ⟨hb2, he2⟩ := List.getElem?_eq_some_iff.mp hp2
    have hpar := buildSlice_pairwise vs texts
    rw [List.pairwise_iff_getElem] at hpar
    have hdesc := hpar j2 j1 hb2 hb1 hj2j1
    unfold descByCount at hdesc
    rw [he1, he2] at hdesc
    omega

/-! ### C9 -/

theorem build_vocab_char_to_id_length (vs : Int) (texts : List PyStr) :
    ((SimpleTokenizer.init vs).build_vocab texts).char_to_id.length =
      2 + (buildTop vs texts).length := by
  rw [build_vocab_char_to_id]
  simp [List.enumFrom_length]
  omega

theorem build_vocab_char_to_id_values (vs : Int) (texts : List PyStr) :
    ∀ kv ∈ ((SimpleTokenizer.init vs).build_vocab texts).char_to_id,
      kv.2 < 2 + (buildTop vs texts).length := by
  rw [build_vocab_char_to_id]
  intro kv hkv
  rcases List.mem_append.mp hkv with h | h
  · rcases List.mem_cons.mp h with h | h
    · rw [h]; omega
    · rcases List.mem_cons.mp h with h | h
      · rw [h]; omega
      · simp at h
  · obtain ⟨p, hp, hkv⟩ := List.mem_map.mp h
    have := List.fst_lt_add_of_mem_enumFrom hp
    rw [← hkv]
    simpa [Nat.add_comm] using this

/-- C9: after `build_vocab`, `encode` returns exactly `max_length` IDs, each a
valid index into a `len(char_to_id)`-sized embedding table. -/
theorem encode_fixed_length_and_in_range (vs : Int) (texts : List PyStr)
    (text : PyStr) (n : Nat) :
    (((SimpleTokenizer.init vs).build_vocab texts).encode text (n : Int)).length = n ∧
    ∀ i ∈ ((SimpleTokenizer.init vs).build_vocab texts).encode text (n : Int),
      i < ((SimpleTokenizer.init vs).build_vocab texts).char_to_id.length := by
  have hlen2 := build_vocab_char_to_id_length vs texts
  have hid : ∀ c : Char,
      (dictFind ((SimpleTokenizer.init vs).build_vocab texts).char_to_id [c]).getD
          ((SimpleTokenizer.init vs).build_vocab texts).unk_token_id <
        ((SimpleTokenizer.init vs).build_vocab texts).char_to_id.length := by
    intro c
    cases h : dictFind ((SimpleTokenizer.init vs).build_vocab texts).char_to_id [c] with
    | none =>
        show ((SimpleTokenizer.init vs).build_vocab texts).unk_token_id < _
        rw [(build_vocab_token_ids vs texts).2, hlen2]
        omega
    | some v =>
        show v < _
        rw [hlen2]
        exact build_vocab_char_to_id_values vs texts ([c], v) (mem_of_dictFind_eq_some h)
  rw [SimpleTokenizer.encode]
  by_cases hb : (n : Int) < ((text.map fun ch =>
      (dictFind ((SimpleTokenizer.init vs).build_vocab texts).char_to_id [ch]).getD
        ((SimpleTokenizer.init vs).build_vocab texts).unk_token_id).length : Int)
  · rw [if_pos hb]
    rw [pySliceTo, if_pos (Int.ofNat_nonneg n)]
    constructor
    · rw [List.length_take, Int.toNat_ofNat]
      simp only [List.length_map] at hb ⊢
      omega
    · intro i hi
      have hi' := List.mem_of_mem_take hi
      obtain ⟨c, _, hc⟩ := List.mem_map.mp hi'
      rw [← hc]
      exact hid c
  · rw [if_neg hb]
    constructor
    · simp only [List.length_append, List.length_map, List.length_replicate]
      simp only [List.length_map] at hb
      omega
    · intro i hi
      rcases List.mem_append.mp hi with h | h
      · obtain ⟨c, _, hc⟩ := List.mem_map.mp h
        rw [← hc]
        exact hid c
      · have h0 := List.eq_of_mem_replicate h
        rw [h0]
        show ((SimpleTokenizer.init vs).build_vocab texts).pad_token_id < _
        rw [(build_vocab_token_ids vs texts).1, hlen2]
        omega

/-! ### Helper lemmas: `replace` with the pad/unk markers -/

theorem patRep_zero (pat : PyStr) : patRep pat 0 = [] := rfl

theorem patRep_succ (pat : PyStr) (k : Nat) :
    patRep pat (k + 1) = pat ++ patRep pat k := by
  simp [patRep, List.replicate_succ]

theorem patRep_length (pat : PyStr) (k : Nat) :
    (patRep pat k).length = k * pat.length := by
  induction k with
  | zero => simp [patRep_zero]
  | succ k ih => rw [patRep_succ]; simp [ih]; ring

theorem noOccur_of_bounded (pat s : PyStr) (hne : pat ≠ [])
    (h : ∀ i < s.length, ¬ List.IsPrefix pat (s.drop i)) : NoOccur pat s := by
  intro i hpre
  by_cases hi : i < s.length
  · exact h i hi hpre
  · rw [List.drop_eq_nil_of_le (by omega)] at hpre
    exact hne (List.prefix_nil.mp hpre)

theorem noOccur_tail (pat : PyStr) (c : Char) (s : PyStr)
    (h : NoOccur pat (c :: s)) : NoOccur pat s := fun i => h (i + 1)

theorem replaceDelFuel_nil (pat : PyStr) (fuel : Nat) :
    replaceDelFuel pat fuel [] = [] := by
  cases fuel <;> rfl

/-- Scanning a pure run of pattern copies deletes everything. -/
theorem replaceDelFuel_patRep (pat : PyStr) (hne : pat ≠ []) :
    ∀ (k fuel : Nat), (patRep pat k).length ≤ fuel →
      replaceDelFuel pat fuel (patRep pat k) = [] := by
  intro k
  induction k with
  | zero => intro fuel _; rw [patRep_zero, replaceDelFuel_nil]
  | succ k ih =>
      intro fuel hfuel
      obtain ⟨p, ps, hpat⟩ := List.exists_cons_of_ne_nil hne
      have hlen1 : 0 < pat.length := by rw [hpat]; simp
      have hlen : 0 < (patRep pat (k + 1)).length := by
        rw [patRep_length]
        exact Nat.mul_pos (Nat.succ_pos k) hlen1
      cases fuel with
      | zero => omega
      | succ f =>
          rw [patRep_succ]
          have hsplit : pat ++ patRep pat k = p :: (ps ++ patRep pat k) := by
            rw [hpat]; rfl
          rw [hsplit]
          have hcond : 0 < pat.length ∧
              pat.isPrefixOf (p :: (ps ++ patRep pat k)) = true := by
            refine ⟨hlen1, ?_⟩
            rw [List.isPrefixOf_iff_prefix, ← hsplit]
            exact List.prefix_append pat (patRep pat k)
          rw [replaceDelFuel, if_pos hcond]
          rw [← hsplit, List.drop_left' (by rfl)]
          apply ih
          rw [patRep_succ] at hfuel
          simp only [List.length_append] at hfuel
          omega

/-- Scanning a string in which the pattern never occurs is the identity. -/
theorem replaceDelFuel_noOccur (pat : PyStr) :
    ∀ (s : PyStr) (fuel : Nat), NoOccur pat s → replaceDelFuel pat fuel s = s := by
  intro s
  induction s with
  | nil => intro fuel _; exact replaceDelFuel_nil pat fuel
  | cons c rest ih =>
      intro fuel hno
      cases fuel with
      | zero => rfl
      | succ f =>
          have hcond : ¬(0 < pat.length ∧ pat.isPrefixOf (c :: rest) = true) := by
            rintro ⟨_, hpre⟩
            rw [List.isPrefixOf_iff_prefix] at hpre
            exact hno 0 (by simpa using hpre)
          rw [replaceDelFuel, if_neg hcond]
          rw [ih f (noOccur_tail pat c rest hno)]

/-- The key run lemma: text followed by a run of pattern copies scans to the
text, provided the pattern does not occur in the text and has no dangerous
border. -/
theorem replaceDelFuel_append_patRep (pat : PyStr) (hne : pat ≠ [])
    (hbf : borderFree pat) :
    ∀ (xs : PyStr) (k fuel : Nat), NoOccur pat xs →
      (xs ++ patRep pat k).length ≤ fuel →
      replaceDelFuel pat fuel (xs ++ patRep pat k) = xs := by
  intro xs
  induction xs with
  | nil =>
      intro k fuel _ hfuel
      rw [List.nil_append] at hfuel ⊢
      exact replaceDelFuel_patRep pat hne k fuel hfuel
  | cons c xs' ih =>
      intro k fuel hno hfuel
      cases fuel with
      | zero => simp at hfuel
      | succ f =>
          have hxs : (c :: xs') ++ patRep pat k = c :: (xs' ++ patRep pat k) := rfl
          rw [hxs]
          have hcond : ¬(0 < pat.length ∧
              pat.isPrefixOf (c :: (xs' ++ patRep pat k)) = true) := by
            rintro ⟨hl, hpre⟩
            rw [List.isPrefixOf_iff_prefix] at hpre
            rw [← hxs] at hpre
            by_cases hle : pat.length ≤ (c :: xs').length
            · -- the match would lie inside the text
              have htake := List.prefix_iff_eq_take.mp hpre
              rw [List.take_append_of_le_length hle] at htake
              have : List.IsPrefix pat (c :: xs') :=
                htake ▸ List.take_prefix pat.length (c :: xs')
              exact hno 0 (by simpa using this)
            · -- the match would straddle the text/padding boundary
              push_neg at hle
              have htake := List.prefix_iff_eq_take.mp hpre
              have hdrop : pat.drop (c :: xs').length =
                  (patRep pat k).take (pat.length - (c :: xs').length) := by
                conv_lhs => rw [htake]
                rw [List.drop_take, List.drop_left]
              cases k with
              | zero =>
                  rw [patRep_zero, List.take_nil] at hdrop
                  have hdl := congrArg List.length hdrop
                  rw [List.length_drop] at hdl
                  simp only [List.length_nil] at hdl
                  omega
              | succ k' =>
                  rw [patRep_succ] at hdrop
                  rw [List.take_append_of_le_length (by omega)] at hdrop
                  exact hbf (c :: xs').length hle (by simp) hdrop
          rw [replaceDelFuel, if_neg hcond]
          have hflen : (xs' ++ patRep pat k).length ≤ f := by
            have hstep : ((c :: xs') ++ patRep pat k).length =
                (xs' ++ patRep pat k).length + 1 := by simp
            omega
          rw [ih k f (noOccur_tail pat c _ hno) hflen]

theorem replaceDel_append_patRep (pat xs : PyStr) (k : Nat) (hne : pat ≠ [])
    (hbf : borderFree pat) (hno : NoOccur pat xs) :
    replaceDel pat (xs ++ patRep pat k) = xs :=
  replaceDelFuel_append_patRep pat hne hbf xs k _ hno (Nat.le_refl _)

theorem replaceDel_noOccur (pat s : PyStr) (hno : NoOccur pat s) :
    replaceDel pat s = s :=
  replaceDelFuel_noOccur pat s _ hno

theorem padTok_ne_nil : padTok ≠ [] := by decide

theorem unkTok_ne_nil : unkTok ≠ [] := by decide

theorem borderFree_padTok : borderFree padTok := by
  unfold borderFree
  decide

/-! ### C8 -/

theorem build_vocab_find_id_pad (vs : Int) (texts : List PyStr) :
    dictFind ((SimpleTokenizer.init vs).build_vocab texts).id_to_char 0 = some padTok := by
  rw [build_vocab_id_to_char, dictFind_append]
  simp [dictFind]

theorem build_vocab_find_id (vs : Int) (texts : List PyStr) {j : Nat} {c : Char}
    (hc : (buildTop vs texts)[j]? = some c) :
    dictFind ((SimpleTokenizer.init vs).build_vocab texts).id_to_char (2 + j) = some [c] := by
  rw [build_vocab_id_to_char, dictFind_append]
  have h0 : ¬((0 : Nat) = 2 + j) := by omega
  have h1 : ¬((1 : Nat) = 2 + j) := by omega
  simp only [dictFind, if_neg h0, if_neg h1]
  exact findMappedId_of_getElem hc

theorem flatten_map_singleton (l : List Char) :
    (l.map fun c => ([c] : PyStr)).flatten = l := by
  induction l with
  | nil => rfl
  | cons c rest ih => simp [ih]

/-- C8: round-trip of the tokenizer.  If every character of `text` is in the
`char_to_id` table, `text` fits in `max_length`, and `text` contains neither
'<pad>' nor '<unk>' as a substring, then `decode (encode text max_length)`
returns `text` unchanged. -/
theorem encode_decode_roundtrip (vs : Int) (texts : List PyStr) (text : PyStr) (n : Nat)
    (hlen : text.length ≤ n)
    (hchars : ∀ c ∈ text,
      (dictFind ((SimpleTokenizer.init vs).build_vocab texts).char_to_id [c]).isSome = true)
    (hpad : ∀ i < text.length, ¬ List.IsPrefix padTok (text.drop i))
    (hunk : ∀ i < text.length, ¬ List.IsPrefix unkTok (text.drop i)) :
    ((SimpleTokenizer.init vs).build_vocab texts).decode
      (((SimpleTokenizer.init vs).build_vocab texts).encode text (n : Int)) = text := by
  have hnopad : NoOccur padTok text := noOccur_of_bounded _ _ padTok_ne_nil hpad
  have hnounk : NoOccur unkTok text := noOccur_of_bounded _ _ unkTok_ne_nil hunk
  -- `encode` pads: the truncation branch is not taken.
  have hids : ((SimpleTokenizer.init vs).build_vocab texts).encode text (n : Int) =
      (text.map fun ch =>
        (dictFind ((SimpleTokenizer.init vs).build_vocab texts).char_to_id [ch]).getD
          ((SimpleTokenizer.init vs).build_vocab texts).unk_token_id)
        ++ List.replicate (n - text.length)
            ((SimpleTokenizer.init vs).build_vocab texts).pad_token_id := by
    rw [SimpleTokenizer.encode]
    have hnb : ¬((n : Int) < (((text.map fun ch =>
        (dictFind ((SimpleTokenizer.init vs).build_vocab texts).char_to_id [ch]).getD
          ((SimpleTokenizer.init vs).build_vocab texts).unk_token_id).length : Nat) : Int)) := by
      rw [List.length_map]
      omega
    rw [if_neg hnb]
    congr 1
    rw [List.length_map]
    congr 1
    omega
  rw [hids, SimpleTokenizer.decode]
  simp only [List.map_append, List.map_map, List.map_replicate]
  -- each looked-up id decodes back to its character
  have hchar : ∀ c ∈ text,
      ((fun i => (dictFind ((SimpleTokenizer.init vs).build_vocab texts).id_to_char i).getD
          unkTok) ∘ fun ch =>
        (dictFind ((SimpleTokenizer.init vs).build_vocab texts).char_to_id [ch]).getD
          ((SimpleTokenizer.init vs).build_vocab texts).unk_token_id) c = [c] := by
    intro c hc
    obtain ⟨i, hi⟩ := Option.isSome_iff_exists.mp (hchars c hc)
    have hfind := hi
    rw [build_vocab_find_char] at hfind
    obtain ⟨j, hj, hij⟩ := findMappedChar_some hfind
    subst hij
    simp only [Function.comp_apply, hi, Option.getD_some]
    rw [build_vocab_find_id vs texts hj]
    rfl
  rw [List.map_congr_left hchar]
  -- the padding ids decode to '<pad>'
  have hpadc : (dictFind ((SimpleTokenizer.init vs).build_vocab texts).id_to_char
      ((SimpleTokenizer.init vs).build_vocab texts).pad_token_id).getD unkTok = padTok := by
    show (dictFind ((SimpleTokenizer.init vs).build_vocab texts).id_to_char 0).getD unkTok
      = padTok
    rw [build_vocab_find_id_pad]
    rfl
  rw [hpadc]
  rw [List.flatten_append, flatten_map_singleton]
  have hrep : (List.replicate (n - text.length) padTok).flatten
      = patRep padTok (n - text.length) := rfl
  rw [hrep, replaceDel_append_patRep padTok text _ padTok_ne_nil borderFree_padTok hnopad]
  exact replaceDel_noOccur unkTok text hnounk

/-! ### C5 / C3: data loader -/

theorem loadFileLoop_eq_filterMap (ls : List PyStr) :
    loadFileLoop ls = ls.filterMap keepLine := by
  suffices h : ∀ acc, ls.foldl
      (fun sentences line =>
        let line := pyStrip line
        if line.isEmpty = false ∧ (['#'].isPrefixOf line) = false then
          sentences ++ [line]
        else sentences) acc = acc ++ ls.filterMap keepLine by
    simpa [loadFileLoop] using h []
  induction ls with
  | nil => intro acc; simp
  | cons l rest ih =>
      intro acc
      simp only [List.foldl_cons, List.filterMap_cons]
      by_cases hc : (pyStrip l).isEmpty = false ∧ (['#'].isPrefixOf (pyStrip l)) = false
      · simp only [keepLine, if_pos hc, ih]
        simp
      · simp only [keepLine, if_neg hc, ih]

/-- C5: the data loader maps exactly the four fixed category names of each
language to the stripped, non-empty, non-comment lines of the matching file,
in file order. -/
theorem data_loader_category_tables (L : TrainingDataLoader) (fs : FileSys) :
    ((L.load_english_data fs).map Prod.fst =
      ["common_phrases", "technical_terms", "conversational", "formal_writing"]) ∧
    ((L.load_japanese_data fs).map Prod.fst =
      ["common_phrases", "business_japanese", "conversational", "mixed_language"]) ∧
    (∀ cat path, (cat, path) ∈ L.englishCategories →
      dictFind (L.load_english_data fs) cat = some (L.load_file fs path)) ∧
    (∀ cat path, (cat, path) ∈ L.japaneseCategories →
      dictFind (L.load_japanese_data fs) cat = some (L.load_file fs path)) ∧
    (∀ path ls, fs path = .full ls → L.load_file fs path = ls.filterMap keepLine) := by
  refine ⟨rfl, rfl, ?_, ?_, ?_⟩
  · intro cat path hmem
    simp only [TrainingDataLoader.englishCategories, List.mem_cons, List.mem_singleton,
      List.not_mem_nil, or_false, Prod.mk.injEq] at hmem
    rcases hmem with ⟨h1, h2⟩ | ⟨h1, h2⟩ | ⟨h1, h2⟩ | ⟨h1, h2⟩ <;>
      (subst h1; subst h2;
       simp [TrainingDataLoader.load_english_data, TrainingDataLoader.englishCategories,
         dictFind])
  · intro cat path hmem
    simp only [TrainingDataLoader.japaneseCategories, List.mem_cons, List.mem_singleton,
      List.not_mem_nil, or_false, Prod.mk.injEq] at hmem
    rcases hmem with ⟨h1, h2⟩ | ⟨h1, h2⟩ | ⟨h1, h2⟩ | ⟨h1, h2⟩ <;>
      (subst h1; subst h2;
       simp [TrainingDataLoader.load_japanese_data, TrainingDataLoader.japaneseCategories,
         dictFind])
  · intro path ls hfull
    rw [TrainingDataLoader.load_file, hfull]
    exact loadFileLoop_eq_filterMap ls

/-- C3, counterexample: `get_all_sentences` raises `ValueError` for an
unsupported language, so not every error is swallowed. -/
theorem get_all_sentences_raises_on_unsupported :
    TrainingDataLoader.init.get_all_sentences (fun _ => .missing) "french" =
      .error "Unsupported language: french" := by
  rfl

/-- C3, amended: every file-reading error is caught (`load_file` totally
returns the lines collected before the failure, the empty list when the file
is missing or cannot be opened), and `get_all_sentences` never raises for
'english' or 'japanese' — but it raises `ValueError` for every other
language. -/
theorem error_handling_caught_except_language (L : TrainingDataLoader) (fs : FileSys) :
    (∀ path, fs path = .missing → L.load_file fs path = []) ∧
    (∀ path, fs path = .openFail → L.load_file fs path = []) ∧
    (∀ path got, fs path = .partialRead got →
      L.load_file fs path = got.filterMap keepLine) ∧
    (∀ path ls, fs path = .full ls → L.load_file fs path = ls.filterMap keepLine) ∧
    (∀ language, language = "english" ∨ language = "japanese" →
      (L.get_all_sentences fs language).isOk = true) ∧
    (∀ language, language ≠ "english" → language ≠ "japanese" →
      L.get_all_sentences fs language =
        .error ("Unsupported language: " ++ language)) := by
  refine ⟨?_, ?_, ?_, ?_, ?_, ?_⟩
  · intro path h; rw [TrainingDataLoader.load_file, h]
  · intro path h; rw [TrainingDataLoader.load_file, h]
  · intro path got h
    rw [TrainingDataLoader.load_file, h]
    exact loadFileLoop_eq_filterMap got
  · intro path ls h
    rw [TrainingDataLoader.load_file, h]
    exact loadFileLoop_eq_filterMap ls
  · rintro language (h | h) <;> subst h <;> rfl
  · intro language h1 h2
    rw [TrainingDataLoader.get_all_sentences, if_neg h1, if_neg h2]

/-! ### C2 -/

/-- C2: `ModelCompressor.compress` is the linear pipeline half-precision cast,
then 30% L1-unstructured pruning of every Linear layer, then LZMA (preset 9)
of the pickled vocabulary, then LZMA (preset 9) of the pickled state dict; the
bytes written to `model.lzma` are exactly the LZMA compression of the pickled
state dict taken after the cast and the pruning. -/
theorem compress_pipeline_order (env : CompressEnv W O State Vocab Bytes)
    (language : String) (model : PyModel W O) (vocab : Vocab) :
    (ModelCompressor.compress env language model vocab).steps =
      [.half_precision_cast, .prune_linear (3 / 10), .vocab_lzma 9,
       .state_dict_lzma 9] ∧
    (ModelCompressor.compress env language model vocab).files =
      [("models/" ++ language ++ "/compressed/model.lzma",
        env.lzmaCompress 9 (env.pickleState (env.state_dict
          (step2_pruning env (3 / 10) (step1_quantization env model))))),
       ("models/" ++ language ++ "/compressed/vocab.lzma",
        env.lzmaCompress 9 (env.pickleVocab vocab))] ∧
    (∀ name w, (name, PyModule.linear w) ∈ model →
      (name, PyModule.linear (env.l1_unstructured_remove (3 / 10) (env.halfLinear w))) ∈
        step2_pruning env (3 / 10) (step1_quantization env model)) := by
  refine ⟨rfl, rfl, ?_⟩
  intro name w hmem
  have h1 : (name, PyModule.linear (env.halfLinear w)) ∈ step1_quantization env model :=
    List.mem_map.mpr ⟨(name, .linear w), hmem, rfl⟩
  exact List.mem_map.mpr ⟨(name, .linear (env.halfLinear w)), h1, rfl⟩

/-! ### C4 / C7 -/

theorem sum_byteSize_f32 (ts : List Tensor) (h : ∀ t ∈ ts, t.dtype = DType.float32) :
    (ts.map Tensor.byteSize).sum = 4 * (ts.map Tensor.nelement).sum := by
  induction ts with
  | nil => rfl
  | cons t rest ih =>
      have ht := h t (List.mem_cons_self _ _)
      simp only [List.map_cons, List.sum_cons, Tensor.byteSize, ht]
      rw [ih fun t' ht' => h t' (List.mem_cons_of_mem _ ht')]
      simp [DType.element_size]
      ring

theorem sum_byteSize_half_f32 (ts : List Tensor)
    (h : ∀ t ∈ ts, t.dtype = DType.float32) :
    ((ts.map fun t => { t with dtype := t.dtype.halfCast }).map Tensor.byteSize).sum =
      2 * (ts.map Tensor.nelement).sum := by
  induction ts with
  | nil => rfl
  | cons t rest ih =>
      have ht := h t (List.mem_cons_self _ _)
      simp only [List.map_cons, List.sum_cons, Tensor.byteSize, ht]
      rw [ih fun t' ht' => h t' (List.mem_cons_of_mem _ ht')]
      simp [DType.halfCast, DType.isFloatingPoint, DType.element_size]
      ring

/-- C4: when the tiny model exists and its tensors are all float32 (as
`TinyKeyboardModel` creates them) with at least one element, the metadata
written by `compress_tiny_model` reports exactly half the original size, a
strict decrease, and a 50% reduction. -/
theorem compress_tiny_metadata_halves (env : TinyEnv B) (fs : FS B) (language : String)
    (hdir : fs.hasPath ("models/" ++ language ++ "/tiny_final") = true)
    (hf32 : ∀ t ∈ (env.from_pretrained fs ("models/" ++ language ++ "/tiny_final")).params ++
        (env.from_pretrained fs ("models/" ++ language ++ "/tiny_final")).buffers,
      t.dtype = DType.float32)
    (hpos : 0 <
      ((env.from_pretrained fs ("models/" ++ language ++ "/tiny_final")).params.map
        Tensor.nelement).sum +
      ((env.from_pretrained fs ("models/" ++ language ++ "/tiny_final")).buffers.map
        Tensor.nelement).sum) :
    ∃ meta, (compress_tiny_model env fs language).1 = some meta ∧
      meta.compressed_size_mb < meta.original_size_mb ∧
      meta.compressed_size_mb = meta.original_size_mb / 2 ∧
      meta.reduction_percent = 50 := by
  set m := env.from_pretrained fs ("models/" ++ language ++ "/tiny_final") with hm
  set N : Nat := (m.params.map Tensor.nelement).sum + (m.buffers.map Tensor.nelement).sum
    with hN
  have hP : ∀ t ∈ m.params, t.dtype = DType.float32 := fun t ht =>
    hf32 t (List.mem_append.mpr (Or.inl ht))
  have hB : ∀ t ∈ m.buffers, t.dtype = DType.float32 := fun t ht =>
    hf32 t (List.mem_append.mpr (Or.inr ht))
  have hsizeO : get_model_size_mb m = 4 * (N : ℚ) / 1024 / 1024 := by
    rw [get_model_size_mb, sum_byteSize_f32 _ hP, sum_byteSize_f32 _ hB]
    push_cast [hN]
    ring
  have hsizeH : get_model_size_mb m.half = 2 * (N : ℚ) / 1024 / 1024 := by
    rw [get_model_size_mb, TorchModel.half]
    rw [sum_byteSize_half_f32 _ hP, sum_byteSize_half_f32 _ hB]
    push_cast [hN]
    ring
  have hNQ : (0 : ℚ) < (N : ℚ) := by exact_mod_cast hpos
  have hcond : ¬(fs.hasPath ("models/" ++ language ++ "/tiny_final") = false) := by
    rw [hdir]; simp
  rw [compress_tiny_model]
  rw [if_neg hcond]
  refine ⟨_, rfl, ?_, ?_, ?_⟩
  · show get_model_size_mb m.half < get_model_size_mb m
    rw [hsizeO, hsizeH, div_div, div_div]
    exact div_lt_div_of_pos_right (by linarith) (by norm_num)
  · show get_model_size_mb m.half = get_model_size_mb m / 2
    rw [hsizeO, hsizeH]
    ring
  · show (1 - get_model_size_mb m.half / get_model_size_mb m) * 100 = 50
    rw [hsizeO, hsizeH]
    have hN0 : (N : ℚ) ≠ 0 := ne_of_gt hNQ
    field_simp
    ring

/-- C7: when `models/{language}/tiny_final` does not exist,
`compress_tiny_model` returns `None` and leaves the filesystem untouched. -/
theorem compress_tiny_missing_model_unchanged (env : TinyEnv B) (fs : FS B)
    (language : String)
    (h : fs.hasPath ("models/" ++ language ++ "/tiny_final") = false) :
    compress_tiny_model env fs language = (none, fs) := by
  rw [compress_tiny_model, if_pos h]

/-! ### C6 -/

/-- C6, counterexample: `data_loader.py` is a CLI entry point (it runs `main()`
under `__main__`), yet its `main` parses no `--language` flag at all. -/
theorem data_loader_main_no_language_flag :
    dataLoaderMainFlags = [] ∧ "--language" ∉ trainTinyMainFlags.tail.tail ∧
      "--language" ∉ dataLoaderMainFlags := by
  refine ⟨rfl, ?_, ?_⟩ <;> decide

/-- C6, amended: each of the five argparse entry points restricts `--language`
to exactly english/japanese/both, rejects anything else before the per-language
loop runs, processes english then japanese for 'both', and processes exactly
the given language otherwise. -/
theorem language_flag_dispatch (arg : String) :
    (arg ∉ languageChoices →
      trainTinyMainLanguages arg = .error ("argument --language: invalid choice: " ++ arg) ∧
      compressTinyMainLanguages arg = .error ("argument --language: invalid choice: " ++ arg) ∧
      convertMainLanguages arg = .error ("argument --language: invalid choice: " ++ arg) ∧
      compressModelMainLanguages arg = .error ("argument --language: invalid choice: " ++ arg) ∧
      trainModelMainLanguages arg = .error ("argument --language: invalid choice: " ++ arg)) ∧
    (trainTinyMainLanguages "both" = .ok ["english", "japanese"] ∧
      compressTinyMainLanguages "both" = .ok ["english", "japanese"] ∧
      convertMainLanguages "both" = .ok ["english", "japanese"] ∧
      compressModelMainLanguages "both" = .ok ["english", "japanese"] ∧
      trainModelMainLanguages "both" = .ok ["english", "japanese"]) ∧
    (arg = "english" ∨ arg = "japanese" →
      trainTinyMainLanguages arg = .ok [arg] ∧
      compressTinyMainLanguages arg = .ok [arg] ∧
      convertMainLanguages arg = .ok [arg] ∧
      compressModelMainLanguages arg = .ok [arg] ∧
      trainModelMainLanguages arg = .ok [arg]) := by
  refine ⟨?_, ⟨rfl, rfl, rfl, rfl, rfl⟩, ?_⟩
  · intro h
    have hp : parseLanguageArg arg =
        .error ("argument --language: invalid choice: " ++ arg) := by
      rw [parseLanguageArg, if_neg h]
    refine ⟨?_, ?_, ?_, ?_, ?_⟩ <;>
      simp [trainTinyMainLanguages, compressTinyMainLanguages, convertMainLanguages,
        compressModelMainLanguages, trainModelMainLanguages, hp, Except.map]
  · rintro (h | h) <;> subst h <;> exact ⟨rfl, rfl, rfl, rfl, rfl⟩

/-! ### C10 -/

/-- C10: `get_train_val_split` is deterministic — its result does not depend
on the ambient RNG state, because `random.seed(42)` reseeds on every call;
and the split point is `int(len(sentences) * val_ratio)`. -/
theorem train_val_split_deterministic (Rng : Type) (seedFn : Nat → Rng)
    (shuffleFn : Rng → List PyStr → List PyStr × Rng) (L : TrainingDataLoader)
    (fs : FileSys) (rng1 rng2 : Rng) (language : String) (vf : ℚ) :
    (L.get_train_val_split Rng seedFn shuffleFn fs rng1 language vf =
      L.get_train_val_split Rng seedFn shuffleFn fs rng2 language vf) ∧
    (∀ ss, L.get_all_sentences fs language = .ok ss →
      L.get_train_val_split Rng seedFn shuffleFn fs rng1 language vf =
        .ok ((pySliceFrom (pyInt ((ss.length : ℚ) * vf)) (shuffleFn (seedFn 42) ss).1,
              pySliceTo (pyInt ((ss.length : ℚ) * vf)) (shuffleFn (seedFn 42) ss).1),
             (shuffleFn (seedFn 42) ss).2)) := by
  constructor
  · rfl
  · intro ss hss
    rw [TrainingDataLoader.get_train_val_split, hss]

/-! ### Witnesses -/

theorem build_vocab_frequency_ranked_witness :
    ((2 : Int) ≤ 5000) ∧
    (dictFind ((SimpleTokenizer.init 5000).build_vocab [['a', 'b', 'a']]).char_to_id padTok
        = some 0 ∧
      dictFind ((SimpleTokenizer.init 5000).build_vocab [['a', 'b', 'a']]).char_to_id unkTok
        = some 1 ∧
      ((((SimpleTokenizer.init 5000).build_vocab [['a', 'b', 'a']]).char_to_id.length : Int)
        ≤ 2 + (5000 - 2)) ∧
      (∀ c i, dictFind ((SimpleTokenizer.init 5000).build_vocab
          [['a', 'b', 'a']]).char_to_id [c] = some i →
        2 ≤ i ∧ 0 < occCount [['a', 'b', 'a']] c) ∧
      (∀ c d i, dictFind ((SimpleTokenizer.init 5000).build_vocab
          [['a', 'b', 'a']]).char_to_id [c] = some i →
        dictFind ((SimpleTokenizer.init 5000).build_vocab
          [['a', 'b', 'a']]).char_to_id [d] = some i → c = d) ∧
      (∀ c d i j, dictFind ((SimpleTokenizer.init 5000).build_vocab
          [['a', 'b', 'a']]).char_to_id [c] = some i →
        dictFind ((SimpleTokenizer.init 5000).build_vocab
          [['a', 'b', 'a']]).char_to_id [d] = some j →
        occCount [['a', 'b', 'a']] d < occCount [['a', 'b', 'a']] c → i ≤ j)) :=
  ⟨by decide, build_vocab_frequency_ranked 5000 [['a', 'b', 'a']] (by decide)⟩

theorem compress_pipeline_order_witness :
    (("lm_head", PyModule.linear 7) ∈ ([("lm_head", PyModule.linear 7)] : PyModel Nat Nat)) ∧
    (("lm_head", PyModule.linear
        (natCompressEnv.l1_unstructured_remove (3 / 10) (natCompressEnv.halfLinear 7))) ∈
      step2_pruning natCompressEnv (3 / 10)
        (step1_quantization natCompressEnv [("lm_head", PyModule.linear 7)])) :=
  ⟨List.mem_singleton.mpr rfl,
   (compress_pipeline_order natCompressEnv "english"
      [("lm_head", PyModule.linear 7)] 9).2.2 "lm_head" 7 (List.mem_singleton.mpr rfl)⟩

theorem error_handling_caught_witness :
    ((fun _ => FileResult.missing : FileSys) "training_data/english/common_phrases.txt"
      = .missing) ∧
    (TrainingDataLoader.init.load_file (fun _ => FileResult.missing)
      "training_data/english/common_phrases.txt" = []) ∧
    ("english" = "english" ∨ "english" = "japanese") ∧
    ((TrainingDataLoader.init.get_all_sentences (fun _ => FileResult.missing)
      "english").isOk = true) :=
  ⟨rfl,
   (error_handling_caught_except_language TrainingDataLoader.init
      (fun _ => FileResult.missing)).1 _ rfl,
   Or.inl rfl,
   (error_handling_caught_except_language TrainingDataLoader.init
      (fun _ => FileResult.missing)).2.2.2.2.1 "english" (Or.inl rfl)⟩

theorem compress_tiny_metadata_halves_witness :
    (demoFS.hasPath ("models/" ++ "english" ++ "/tiny_final") = true) ∧
    (∀ t ∈ (unitTinyEnv.from_pretrained demoFS ("models/" ++ "english" ++ "/tiny_final")).params ++
        (unitTinyEnv.from_pretrained demoFS ("models/" ++ "english" ++ "/tiny_final")).buffers,
      t.dtype = DType.float32) ∧
    (0 < ((unitTinyEnv.from_pretrained demoFS
        ("models/" ++ "english" ++ "/tiny_final")).params.map Tensor.nelement).sum +
      ((unitTinyEnv.from_pretrained demoFS
        ("models/" ++ "english" ++ "/tiny_final")).buffers.map Tensor.nelement).sum) ∧
    (∃ meta, (compress_tiny_model unitTinyEnv demoFS "english").1 = some meta ∧
      meta.compressed_size_mb < meta.original_size_mb ∧
      meta.compressed_size_mb = meta.original_size_mb / 2 ∧
      meta.reduction_percent = 50) :=
  ⟨by decide, by decide, by decide,
   compress_tiny_metadata_halves unitTinyEnv demoFS "english"
     (by decide) (by decide) (by decide)⟩

theorem data_loader_category_tables_witness :
    (("common_phrases", TrainingDataLoader.init.english_dir ++ "/common_phrases.txt") ∈
      TrainingDataLoader.init.englishCategories) ∧
    (dictFind (TrainingDataLoader.init.load_english_data fullFs) "common_phrases" =
      some (TrainingDataLoader.init.load_file fullFs
        (TrainingDataLoader.init.english_dir ++ "/common_phrases.txt"))) ∧
    (fullFs "training_data/english/common_phrases.txt" = .full [['h', 'i']]) ∧
    (TrainingDataLoader.init.load_file fullFs "training_data/english/common_phrases.txt" =
      [['h', 'i']].filterMap keepLine) :=
  ⟨List.mem_cons_self _ _,
   (data_loader_category_tables TrainingDataLoader.init fullFs).2.2.1 _ _
     (List.mem_cons_self _ _),
   rfl,
   (data_loader_category_tables TrainingDataLoader.init fullFs).2.2.2.2 _ _ rfl⟩

theorem language_flag_dispatch_witness :
    ("french" ∉ languageChoices) ∧
    (trainTinyMainLanguages "french" =
      .error ("argument --language: invalid choice: " ++ "french")) ∧
    ("english" = "english" ∨ "english" = "japanese") ∧
    (trainTinyMainLanguages "english" = .ok ["english"]) :=
  ⟨by decide,
   ((language_flag_dispatch "french").1 (by decide)).1,
   Or.inl rfl,
   ((language_flag_dispatch "english").2.2 (Or.inl rfl)).1⟩

theorem compress_tiny_missing_model_witness :
    (emptyFS.hasPath ("models/" ++ "english" ++ "/tiny_final") = false) ∧
    (compress_tiny_model unitTinyEnv emptyFS "english" = (none, emptyFS)) :=
  ⟨rfl, compress_tiny_missing_model_unchanged unitTinyEnv emptyFS "english" rfl⟩

theorem encode_decode_roundtrip_witness :
    ((['h', 'i'] : PyStr).length ≤ 4) ∧
    (∀ c ∈ (['h', 'i'] : PyStr),
      (dictFind ((SimpleTokenizer.init 5000).build_vocab [['h', 'i']]).char_to_id
        [c]).isSome = true) ∧
    (∀ i < (['h', 'i'] : PyStr).length, ¬ List.IsPrefix padTok (['h', 'i'].drop i)) ∧
    (∀ i < (['h', 'i'] : PyStr).length, ¬ List.IsPrefix unkTok (['h', 'i'].drop i)) ∧
    (((SimpleTokenizer.init 5000).build_vocab [['h', 'i']]).decode
      (((SimpleTokenizer.init 5000).build_vocab [['h', 'i']]).encode ['h', 'i']
        ((4 : Nat) : Int)) = ['h', 'i']) :=
  ⟨by decide, by decide, by decide, by decide,
   encode_decode_roundtrip 5000 [['h', 'i']] ['h', 'i'] 4
     (by decide) (by decide) (by decide) (by decide)⟩

theorem encode_fixed_length_and_in_range_witness :
    ((((SimpleTokenizer.init 5000).build_vocab [['h', 'i']]).encode ['h', 'i', '!']
        ((2 : Nat) : Int)).length = 2) ∧
    (∀ i ∈ ((SimpleTokenizer.init 5000).build_vocab [['h', 'i']]).encode ['h', 'i', '!']
        ((2 : Nat) : Int),
      i < ((SimpleTokenizer.init 5000).build_vocab [['h', 'i']]).char_to_id.length) :=
  encode_fixed_length_and_in_range 5000 [['h', 'i']] ['h', 'i', '!'] 2

theorem train_val_split_deterministic_witness :
    (TrainingDataLoader.init.get_all_sentences fullFs "english" = .ok demoSentences) ∧
    ((TrainingDataLoader.init.get_train_val_split Nat (fun s => s) idShuffle fullFs 7
        "english" (1 / 10) =
      TrainingDataLoader.init.get_train_val_split Nat (fun s => s) idShuffle fullFs 99
        "english" (1 / 10)) ∧
     (TrainingDataLoader.init.get_train_val_split Nat (fun s => s) idShuffle fullFs 7
        "english" (1 / 10) =
      .ok ((pySliceFrom (pyInt ((demoSentences.length : ℚ) * (1 / 10)))
              (idShuffle ((fun s => s) 42) demoSentences).1,
            pySliceTo (pyInt ((demoSentences.length : ℚ) * (1 / 10)))
              (idShuffle ((fun s => s) 42) demoSentences).1),
           (idShuffle ((fun s => s) 42) demoSentences).2))) :=
  ⟨rfl,
   (train_val_split_deterministic Nat (fun s => s) idShuffle TrainingDataLoader.init
      fullFs 7 99 "english" (1 / 10)).1,
   (train_val_split_deterministic Nat (fun s => s) idShuffle TrainingDataLoader.init
      fullFs 7 99 "english" (1 / 10)).2 demoSentences rfl⟩

end LLMKeyboard
